import Mathlib

/-!
Verification of the message-normalization and middleware-dispatch pipeline of
the `segment-analytics` client library (a hard fork of `analytics.js-core`).

The development shallowly embeds the relevant source files:

* `src/lib/messages/index.ts` — `normalize` (message normalizer);
* `src/lib/analytics.ts` — `initialize` (integration registration and the
  disabled-at-initialization filter) and the facade methods;
* `src/lib/legacy/index.ts` — `_invoke` / `applyIntegrationMiddlewares`
  (the dispatch engine);
* `src/lib/entity/index.ts` and the `User` entity — the user-id setter and
  the anonymous-id reset rule.

JavaScript objects are embedded as association lists with JS insertion-order
semantics (`smapSet` updates in place or appends), JS values as the inductive
`JValue`, and in-place mutation as explicit state passing: functions that
mutate their arguments in the source return the final state of those
arguments here.  External npm collaborators (the facade's `enabled` check,
the middleware chain module, `JSON.stringify`, md5 and uuid) are either
modelled from the spec where noted or taken as explicit function parameters.
-/

/-- A JavaScript value, restricted to the shapes the pipeline manipulates:
`null`, booleans, strings and (ordered) objects. -/
inductive JValue where
  | null : JValue
  | bool (b : Bool) : JValue
  | str (s : String) : JValue
  | obj (fields : List (String × JValue)) : JValue
deriving Repr

mutual

/-- Decidable equality of embedded JS values. -/
def JValue.decEq : (a b : JValue) → Decidable (a = b)
  | .null, .null => isTrue rfl
  | .bool a, .bool b =>
    match Bool.decEq a b with
    | isTrue h => isTrue (by rw [h])
    | isFalse h => isFalse (by intro hh; cases hh; exact h rfl)
  | .str a, .str b =>
    match String.decEq a b with
    | isTrue h => isTrue (by rw [h])
    | isFalse h => isFalse (by intro hh; cases hh; exact h rfl)
  | .obj a, .obj b =>
    match JValue.decEqFields a b with
    | isTrue h => isTrue (by rw [h])
    | isFalse h => isFalse (by intro hh; cases hh; exact h rfl)
  | .null, .bool _ => isFalse (by intro h; cases h)
  | .null, .str _ => isFalse (by intro h; cases h)
  | .null, .obj _ => isFalse (by intro h; cases h)
  | .bool _, .null => isFalse (by intro h; cases h)
  | .bool _, .str _ => isFalse (by intro h; cases h)
  | .bool _, .obj _ => isFalse (by intro h; cases h)
  | .str _, .null => isFalse (by intro h; cases h)
  | .str _, .bool _ => isFalse (by intro h; cases h)
  | .str _, .obj _ => isFalse (by intro h; cases h)
  | .obj _, .null => isFalse (by intro h; cases h)
  | .obj _, .bool _ => isFalse (by intro h; cases h)
  | .obj _, .str _ => isFalse (by intro h; cases h)

/-- Decidable equality of embedded JS object field lists. -/
def JValue.decEqFields : (a b : List (String × JValue)) → Decidable (a = b)
  | [], [] => isTrue rfl
  | [], _ :: _ => isFalse (by intro h; cases h)
  | _ :: _, [] => isFalse (by intro h; cases h)
  | (k1, v1) :: r1, (k2, v2) :: r2 =>
    match String.decEq k1 k2 with
    | isFalse h => isFalse (by intro hh; cases hh; exact h rfl)
    | isTrue hk =>
      match JValue.decEq v1 v2 with
      | isFalse h => isFalse (by intro hh; cases hh; exact h rfl)
      | isTrue hv =>
        match JValue.decEqFields r1 r2 with
        | isFalse h => isFalse (by intro hh; cases hh; exact h rfl)
        | isTrue hr => isTrue (by rw [hk, hv, hr])

end

instance : DecidableEq JValue := JValue.decEq

/-- An embedded JavaScript object: an association list of key/value pairs in
insertion order. -/
abbrev SMap (α : Type) : Type := List (String × α)

/-- Property read `m[k]`: the value at the first occurrence of key `k`. -/
def smapGet {α : Type} (m : SMap α) (k : String) : Option α :=
  (m.find? (fun kv => kv.1 == k)).map (fun kv => kv.2)

/-- Property write `m[k] = v`: replace in place when the key exists, append
otherwise (JS insertion-order semantics; object keys are unique). -/
def smapSet {α : Type} : SMap α → String → α → SMap α
  | [], k, v => [(k, v)]
  | kv :: rest, k, v =>
    if kv.1 == k then (k, v) :: rest else kv :: smapSet rest k v

/-- Property deletion `delete m[k]`. -/
def smapErase {α : Type} (m : SMap α) (k : String) : SMap α :=
  m.filter (fun kv => kv.1 != k)

/-- `Object.keys(m)`. -/
def smapKeys {α : Type} (m : SMap α) : List String :=
  m.map (fun kv => kv.1)

/-- Object spread `\x7b...a, ...b\x7d`: `a`'s entries first, then `b`'s
entries written over them in order. -/
def spread {α : Type} (a b : SMap α) : SMap α :=
  b.foldl (fun acc kv => smapSet acc kv.1 kv.2) a

/-- Coerce an optional `JValue` to the object it holds; anything that is not
an object degrades to the empty object (the `?? \x7b\x7d` fallbacks in the
source). -/
def asObj (v : Option JValue) : SMap JValue :=
  match v with
  | some (JValue.obj o) => o
  | _ => []

/-- JS `typeof x === 'object'` for an optional property: objects and `null`
answer true, missing properties (`undefined`), booleans and strings false. -/
def isObjType (v : Option JValue) : Bool :=
  match v with
  | some (JValue.obj _) => true
  | some JValue.null => true
  | _ => false

/-- JS `typeof v === 'boolean'`. -/
def isBoolVal (v : JValue) : Bool :=
  match v with
  | JValue.bool _ => true
  | _ => false

mutual

/-- A concrete stand-in for the host `window.JSON.stringify` on embedded
values (an external browser builtin; only injectivity-irrelevant shape is
used by the theorems). -/
def serializeJValue : JValue → String
  | JValue.null => "null"
  | JValue.bool true => "true"
  | JValue.bool false => "false"
  | JValue.str s => "\"" ++ s ++ "\""
  | JValue.obj fields => "\x7b" ++ serializeFields fields ++ "\x7d"

/-- Serialization of an object's field list. -/
def serializeFields : List (String × JValue) → String
  | [] => ""
  | (k, v) :: rest => "\"" ++ k ++ "\":" ++ serializeJValue v ++ "," ++ serializeFields rest

end

/-- Serialization of a whole draft message (`window.JSON.stringify(msg)`). -/
def serializeMsg (msg : SMap JValue) : String :=
  serializeJValue (JValue.obj msg)

/-! ## The message normalizer — `normalize` in `src/lib/messages/index.ts` -/

/-- The fixed allow-list `TOP_LEVEL_PROPERTIES` of `src/lib/messages/index.ts`. -/
def TOP_LEVEL_PROPERTIES : List String :=
  ["integrations", "anonymousId", "timestamp", "context"]

/-- The local predicate `integration(name)` of `normalize`: the key is a known
destination name (exact or case-insensitive) or the wildcard `all`. -/
def isIntegrationName (list : List String) (name : String) : Bool :=
  list.contains name
    || name.toLower == "all"
    || (list.map (fun s => s.toLower)).contains name.toLower

/-- First `normalize` loop (`// integrations.`): walk the keys of `opts`; a
key recognized as a destination name is moved into the `integrations` map
unless already set there, and deleted from `opts`.  Returns the final
`(integrations, opts)` pair. -/
def normalizeIntegrationsPass (list : List String) :
    List (String × JValue) → SMap JValue → SMap JValue → SMap JValue × SMap JValue
  | [], integ, opts => (integ, opts)
  | (k, v) :: rest, integ, opts =>
    if isIntegrationName list k then
      let integ2 := if (smapGet integ k).isNone then smapSet integ k v else integ
      normalizeIntegrationsPass list rest integ2 (smapErase opts k)
    else
      normalizeIntegrationsPass list rest integ opts

/-- Second `normalize` loop (`// providers.`): a provider entry for a
recognized destination is written into `integrations` unless the current
`integrations` value is an object (`typeof === 'object'`), or it is already
defined while the provider value is a boolean. -/
def normalizeProvidersPass (list : List String) :
    List (String × JValue) → SMap JValue → SMap JValue
  | [], integ => integ
  | (k, v) :: rest, integ =>
    if !(isIntegrationName list k) then
      normalizeProvidersPass list rest integ
    else if isObjType (smapGet integ k) then
      normalizeProvidersPass list rest integ
    else if (smapGet integ k).isSome && isBoolVal v then
      normalizeProvidersPass list rest integ
    else
      normalizeProvidersPass list rest (smapSet integ k v)

/-- Third `normalize` loop: every remaining `opts` key on the fixed top-level
allow-list is copied onto the envelope, every other key into `context`.
Returns the final `(ret, context)` pair. -/
def normalizeTopLevelPass :
    List (String × JValue) → SMap JValue → SMap JValue → SMap JValue × SMap JValue
  | [], ret, ctx => (ret, ctx)
  | (k, v) :: rest, ret, ctx =>
    if TOP_LEVEL_PROPERTIES.contains k then
      normalizeTopLevelPass rest (smapSet ret k v) ctx
    else
      normalizeTopLevelPass rest ret (smapSet ctx k v)

/-- Result of `normalize`: the returned envelope together with the final
states of the two objects the source mutates in place (the draft `msg` and
the caller's `options` object). -/
structure NormalizeResult where
  env : SMap JValue
  msgAfter : SMap JValue
  optsAfter : SMap JValue
deriving Repr, DecidableEq

/-- Shallow embedding of `normalize(msg, list)` from
`src/lib/messages/index.ts`.  The md5 `hash` function and the freshly drawn
`uuid` string are explicit parameters (external `spark-md5` / `uuid`
modules); in-place mutation of `msg` and of its `options` object is returned
as explicit final state. -/
def normalizeFull (hash : String → String) (uuid : String)
    (msg : SMap JValue) (list : List String) : NormalizeResult :=
  let opts0 := asObj (smapGet msg "options")
  let integrations0 := asObj (smapGet opts0 "integrations")
  let providers0 := asObj (smapGet opts0 "providers")
  let context0 := asObj (smapGet opts0 "context")
  let messageId := "ajs-" ++ hash (serializeMsg msg ++ uuid)
  let ret0 : SMap JValue :=
    [("messageId", JValue.str messageId),
     ("integrations", JValue.obj []),
     ("context", JValue.obj [])]
  let pass1 := normalizeIntegrationsPass list opts0 integrations0 opts0
  let opts2 := smapErase pass1.2 "providers"
  let integ2 := normalizeProvidersPass list providers0 pass1.1
  let pass3 := normalizeTopLevelPass opts2 ret0 context0
  let msgAfter := smapErase msg "options"
  let ret2 := smapSet (smapSet pass3.1 "integrations" (JValue.obj integ2))
      "context" (JValue.obj pass3.2)
  { env := spread msgAfter ret2, msgAfter := msgAfter, optsAfter := opts2 }

/-- The envelope returned by `normalize` (named `normalizeMsg` here because
Mathlib already declares a `normalize`). -/
def normalizeMsg (hash : String → String) (uuid : String)
    (msg : SMap JValue) (list : List String) : SMap JValue :=
  (normalizeFull hash uuid msg list).env

/-! ## The dispatch engine — `_invoke` / `applyIntegrationMiddlewares` in
`src/lib/legacy/index.ts` -/

/-- A facade payload: the message object carried by the `Facade` wrapper. -/
abbrev Payload : Type := SMap JValue

/-- A middleware stage: it receives the current payload and completes with
either a (possibly modified) payload, a drop signal (`null`), or an
exception. -/
abbrev MiddlewareFn : Type := Payload → Except String (Option Payload)

/-- Modelled from the spec: the middleware chain module (`src/lib/middleware`)
is not among the repository's source files, only its callers are.  Following
section 4.3, a chain applies its callables strictly in registration order;
each stage passes the envelope on, returns a modified one, or signals drop
(`null`), which halts the chain; a stage that throws aborts the chain with
that exception (caught by the dispatch engine's `try`). -/
def applyChain : List MiddlewareFn → Payload → Except String (Option Payload)
  | [], p => Except.ok (some p)
  | m :: rest, p =>
    match m p with
    | Except.error e => Except.error e
    | Except.ok none => Except.ok none
    | Except.ok (some q) => applyChain rest q

/-- The `integrations` map carried by a payload. -/
def integrationsOf (p : Payload) : SMap JValue :=
  asObj (smapGet p "integrations")

/-- Modelled from the spec: `facadeCopy.enabled(name)` comes from the
external `segmentio-facade` package.  Following section 4.4, a destination is
enabled when its exact name is mapped to a truthy value or an object, and
otherwise falls back to the wildcard `All` entry, defaulting to enabled. -/
def enabled (integrations : SMap JValue) (name : String) : Bool :=
  match smapGet integrations name with
  | some (JValue.bool b) => b
  | some _ => true
  | none =>
    match smapGet integrations "All" with
    | some (JValue.bool b) => b
    | some _ => true
    | none => true

/-- The per-destination outcome of one dispatch, distinguishing every exit
path of the `forEach` body in `applyIntegrationMiddlewares`. -/
inductive DestResult where
  | skippedDisabled : DestResult
  | skippedFailed : DestResult
  | droppedByIntegrationMW : DestResult
  | droppedByDestinationMW : DestResult
  | invoked (payload : Payload) : DestResult
  | threwInMiddleware (e : String) : DestResult
  | handlerThrew (e : String) : DestResult
deriving Repr, DecidableEq

/-- Whether the destination's handler (`integration.invoke`) actually ran. -/
def DestResult.handlerInvoked : DestResult → Bool
  | DestResult.invoked _ => true
  | DestResult.handlerThrew _ => true
  | _ => false

/-- The pieces of `Analytics` state that `_invoke` reads, with the external
destination handlers as an explicit function (name → method → payload →
normal return or thrown exception). -/
structure DispatchConfig where
  integrations : List String
  failedInitializations : List String
  sourceMWs : List MiddlewareFn
  integrationMWs : List (String → MiddlewareFn)
  destinationMWs : String → Option (List MiddlewareFn)
  handler : String → String → Payload → Except String Unit

/-- One iteration of the `forEach` body of `applyIntegrationMiddlewares`
(`src/lib/legacy/index.ts` lines 363-450) for the destination `name`:
deep-copy the envelope, check enablement and initialization health, run the
integration-level chain on the copy, then — exactly as the source does on
line 402 — run the destination-level chain (when one is registered) on
`facadeCopy`, and invoke the handler; the surrounding `try` turns any thrown
exception into a logged, non-propagating outcome. -/
def dispatchOne (cfg : DispatchConfig) (method : String) (facade : Payload)
    (name : String) : DestResult :=
  let facadeCopy := facade
  if !(enabled (integrationsOf facadeCopy) name) then
    DestResult.skippedDisabled
  else if cfg.failedInitializations.contains name then
    DestResult.skippedFailed
  else
    match applyChain (cfg.integrationMWs.map (fun m => m name)) facadeCopy with
    | Except.error e => DestResult.threwInMiddleware e
    | Except.ok none => DestResult.droppedByIntegrationMW
    | Except.ok (some result) =>
      match cfg.destinationMWs name with
      | some chain =>
        match applyChain chain facadeCopy with
        | Except.error e => DestResult.threwInMiddleware e
        | Except.ok none => DestResult.droppedByDestinationMW
        | Except.ok (some result2) =>
          match cfg.handler name method result2 with
          | Except.ok _ => DestResult.invoked result2
          | Except.error e => DestResult.handlerThrew e
      | none =>
        match cfg.handler name method result with
        | Except.ok _ => DestResult.invoked result
        | Except.error e => DestResult.handlerThrew e

/-- The whole `applyIntegrationMiddlewares(facade)` fan-out: every registered
destination, in registration order, gets its own independently computed
outcome. -/
def applyIntegrationMiddlewares (cfg : DispatchConfig) (method : String)
    (facade : Payload) : List (String × DestResult) :=
  cfg.integrations.map (fun name => (name, dispatchOne cfg method facade name))

/-- Result of `Analytics.prototype._invoke`. -/
inductive InvokeResult where
  | caughtError (e : String) : InvokeResult
  | droppedBySource : InvokeResult
  | dispatched (results : List (String × DestResult)) : InvokeResult
deriving Repr, DecidableEq

/-- Shallow embedding of `Analytics.prototype._invoke`: apply the
source-level chain to a copy of the facade; a drop ends the call, a thrown
exception is caught by the outer `try`, and otherwise every destination is
dispatched. -/
def invokeMethod (cfg : DispatchConfig) (method : String) (facade : Payload) :
    InvokeResult :=
  match applyChain cfg.sourceMWs facade with
  | Except.error e => InvokeResult.caughtError e
  | Except.ok none => InvokeResult.droppedBySource
  | Except.ok (some result) =>
    InvokeResult.dispatched (applyIntegrationMiddlewares cfg method result)

/-- The names of destinations whose handler ran during a dispatch. -/
def invokedNames (rs : List (String × DestResult)) : List String :=
  (rs.filter (fun r => r.2.handlerInvoked)).map (fun r => r.1)

/-! ## Initialization — `Analytics.initialize` in `src/lib/analytics.ts` -/

/-- The disabled-at-initialization test of `initialize` (lines 162-170 of
`src/lib/analytics.ts`): with an `options.integrations` map present, an
integration is not loaded when its entry is `false`, or when `All` is
`false` and its own entry is not truthy. -/
def disabledAtInit (initInteg : Option (SMap Bool)) (name : String) : Bool :=
  match initInteg with
  | none => false
  | some m =>
    smapGet m name == some false
      || (smapGet m "All" == some false && !(smapGet m name == some true))

/-- The set of integrations actually constructed and registered by
`initialize`: settings keys are first cleaned of unknown integrations, then
filtered by the disabled-at-initialization test. -/
def initializeIntegrations (registered : List String)
    (settingsKeys : List String) (initInteg : Option (SMap Bool)) : List String :=
  (settingsKeys.filter (fun k => registered.contains k)).filter
    (fun name => !(disabledAtInit initInteg name))

/-- What the per-integration startup loop of `initialize` (lines 206-244 of
`src/lib/analytics.ts`) records: the names pushed onto
`failedInitializations` and the names whose `ready()` was explicitly called
from the `catch` block. -/
structure InitRunResult where
  failedInitializations : List String
  readyCalled : List String
deriving Repr, DecidableEq

/-- The startup loop: each integration's `initialize()` runs under a `try`;
on a throw the name is recorded as failed and the integration is marked
ready so it cannot block global readiness.  The external `initialize()`
bodies are the explicit `initBehavior` parameter. -/
def runInitialize (names : List String)
    (initBehavior : String → Except String Unit) : InitRunResult :=
  names.foldl
    (fun acc name =>
      match initBehavior name with
      | Except.ok _ => acc
      | Except.error _ =>
        { failedInitializations := acc.failedInitializations ++ [name],
          readyCalled := acc.readyCalled ++ [name] })
    { failedInitializations := [], readyCalled := [] }

/-! ## The destination enablement resolver for `track` plans

Modelled from the spec: tracking-plan support is not among the repository's
source files — the README lists "Planning `track` events" as not ported and
`_mergeInitializeAndPlanIntegrations` is only declared, never implemented.
The definitions below follow section 4.2 of the spec word for word. -/

/-- A tracking-plan entry for one event name: an enablement flag and
optional per-destination directives. -/
structure PlanEntry where
  enabled : Bool
  integrations : SMap JValue
deriving Repr, DecidableEq

/-- The reserved always-on primary collection destination. -/
def PRIMARY_DEST : String := "Segment.io"

/-- The enablement map forced by the plan for suppressed `track` events. -/
def forcedTrackMap : SMap JValue :=
  [("All", JValue.bool false), (PRIMARY_DEST, JValue.bool true)]

/-- Modelled from the spec (section 4.2): whether the plan suppresses a
`track` event — a specific entry with enablement `false`, or no specific
entry while the default (`__default`) entry is disabled. -/
def planDisablesTrackEvent (events : SMap PlanEntry) (event : String) : Bool :=
  match smapGet events event with
  | some e => !e.enabled
  | none =>
    match smapGet events "__default" with
    | some d => !d.enabled
    | none => false

/-- Modelled from the spec (section 4.2):
`resolve(initIntegrations, planDirective, callOptions)`.  With no
initialization map the plan directive is the base; otherwise the
initialization map is the base, collapsed to the wildcard-disabled entry
when the plan disables `All`, and every other plan key applies only where
initialization did not explicitly disable it; per-call override options are
merged on top with highest precedence. -/
def resolveEnablement (initInteg : Option (SMap JValue)) (plan : SMap JValue)
    (callOpts : SMap JValue) : SMap JValue :=
  match initInteg with
  | none => spread plan callOpts
  | some init =>
    let base :=
      if smapGet plan "All" == some (JValue.bool false) then
        [("All", JValue.bool false)]
      else init
    let merged := plan.foldl
      (fun acc kv =>
        if kv.1 == "All" then acc
        else if smapGet init kv.1 == some (JValue.bool false) then acc
        else smapSet acc kv.1 kv.2)
      base
    spread merged callOpts

/-- Modelled from the spec (section 4.2, special rule for `track`): when the
plan suppresses the event, the effective map is forced to
`\x7bAll: false, "Segment.io": true\x7d` regardless of the merge; otherwise
the specific entry's directives (if any) go through the ordinary resolver. -/
def resolveTrackEnablement (initInteg : Option (SMap JValue))
    (events : SMap PlanEntry) (event : String) (callOpts : SMap JValue) :
    SMap JValue :=
  if planDisablesTrackEvent events event then forcedTrackMap
  else
    let planDirective :=
      match smapGet events event with
      | some e => e.integrations
      | none => []
    resolveEnablement initInteg planDirective callOpts

/-! ## The user entity — `src/lib/entity/index.ts` and the `User` subclass -/

/-- The state behind the default (persisting) `User` entity: the id visible
through the `Entity` getter (backed by cookie storage), the stored anonymous
id (`none` once reset, so the next read generates a fresh one), and the
legacy raw `_sio` cookie. -/
structure UserState where
  userId : Option String
  anonId : Option String
  sio : Option String
deriving Repr, DecidableEq

/-- JS truthiness test for a nullable string: `null`, `undefined` and the
empty string are falsy. -/
def falsyStr (v : Option String) : Bool :=
  match v with
  | none => true
  | some s => s == ""

/-- The `anonymousId(value)` setter path of `User`: store the value
verbatim (storing `null` clears it). -/
def User.setAnonymousId (st : UserState) (v : Option String) : UserState :=
  { st with anonId := v }

/-- Shallow embedding of the `User` `id` setter (`src` user entity, lines
57-72): remember the previous id, let the `Entity` setter store the new one,
and reset the anonymous id only when both the previous and the new id are
truthy and differ. -/
def User.setId (st : UserState) (id : Option String) : UserState :=
  let prev := st.userId
  let st1 := { st with userId := id }
  if falsyStr prev || falsyStr id then st1
  else if prev ≠ id then User.setAnonymousId st1 none
  else st1

/-- Shallow embedding of the `anonymousId()` read path: return the stored
value when present; otherwise fall back to the legacy `_sio` cookie (its
value up to `----`, migrated into the store); otherwise generate and store a
fresh uuid (the external random draw is the `fresh` parameter).  Returns the
id together with the updated state. -/
def User.readAnonymousId (st : UserState) (fresh : String) :
    String × UserState :=
  match st.anonId with
  | some a => (a, st)
  | none =>
    match st.sio with
    | some s =>
      let a := ((s.splitOn "----").headD s)
      (a, { st with anonId := some a, sio := none })
    | none => (fresh, { st with anonId := some fresh })

/-! ## Concrete configurations used by counterexamples and witnesses -/

/-- A dispatch configuration with a single destination `X` whose
integration-level middleware adds a marker field `m`, and whose registered
destination-level chain is the identity middleware; the handler always
succeeds. -/
def c2Config : DispatchConfig :=
  { integrations := ["X"],
    failedInitializations := [],
    sourceMWs := [],
    integrationMWs :=
      [fun _ p => Except.ok (some (smapSet p "m" (JValue.bool true)))],
    destinationMWs := fun n => if n == "X" then some [fun p => Except.ok (some p)] else none,
    handler := fun _ _ _ => Except.ok () }

/-- A dispatch configuration with destinations `A` and `B` where the shared
integration-level middleware drops the envelope for `A` and marks it for
`B`; `A`'s handler always throws; no destination-level chains. -/
def c34Config : DispatchConfig :=
  { integrations := ["A", "B"],
    failedInitializations := [],
    sourceMWs := [],
    integrationMWs :=
      [fun n p =>
        if n == "A" then Except.ok none
        else Except.ok (some (smapSet p "seen" (JValue.str n)))],
    destinationMWs := fun _ => none,
    handler := fun n _ _ => if n == "A" then Except.error "boom" else Except.ok () }

/-- A dispatch configuration with destinations `A` and `B` and no
middleware at all, where `A`'s handler throws. -/
def c3ThrowConfig : DispatchConfig :=
  { integrations := ["A", "B"],
    failedInitializations := [],
    sourceMWs := [],
    integrationMWs := [],
    destinationMWs := fun _ => none,
    handler := fun n _ _ => if n == "A" then Except.error "boom" else Except.ok () }

/-! ## Basic lemmas about the embedded JS object operations -/

/-- Reading the key just written returns the written value. -/
theorem smapGet_set_self {α : Type} (m : SMap α) (k : String) (v : α) :
    smapGet (smapSet m k v) k = some v := by
  induction m with
  | nil => simp [smapSet, smapGet, List.find?]
  | cons kv rest ih =>
    by_cases hk : kv.1 == k
    · simp [smapSet, hk, smapGet, List.find?]
    · simp only [smapSet, hk, if_false]
      simpa [smapGet, List.find?, hk] using ih

/-- Writing another key does not change a read. -/
theorem smapGet_set_ne {α : Type} (m : SMap α) (k k2 : String) (v : α)
    (h : k ≠ k2) : smapGet (smapSet m k2 v) k = smapGet m k := by
  induction m with
  | nil =>
    have hne : ¬((k2 : String) == k) := by
      simp only [beq_iff_eq]
      exact fun hh => h hh.symm
    simp [smapSet, smapGet, List.find?, hne]
  | cons kv rest ih =>
    by_cases hk : kv.1 == k2
    · have hne : ¬(kv.1 == k) := by
        simp only [beq_iff_eq] at hk ⊢
        rw [hk]
        exact fun hh => h hh.symm
      have hne2 : ¬((k2 : String) == k) := by
        simp only [beq_iff_eq]
        exact fun hh => h hh.symm
      simp [smapSet, hk, smapGet, List.find?, hne, hne2]
    · simp only [smapSet, hk, if_false]
      by_cases hk2 : kv.1 == k
      · simp [smapGet, List.find?, hk2]
      · simpa [smapGet, List.find?, hk2] using ih

/-- Reading a deleted key returns nothing. -/
theorem smapGet_erase_self {α : Type} (m : SMap α) (k : String) :
    smapGet (smapErase m k) k = none := by
  induction m with
  | nil => rfl
  | cons kv rest ih =>
    simp only [smapErase] at ih ⊢
    rw [List.filter_cons]
    by_cases hk : kv.1 == k
    · have hbne : (kv.1 != k) = false := by simp only [bne, hk, Bool.not_true]
      rw [hbne]
      simpa using ih
    · have hbne : (kv.1 != k) = true := by simp only [bne, hk, Bool.not_false]
      rw [hbne]
      rw [if_pos rfl]
      simp only [smapGet, List.find?, hk] at ih ⊢
      exact ih

/-- Deleting another key does not change a read. -/
theorem smapGet_erase_ne {α : Type} (m : SMap α) (k k2 : String)
    (h : k ≠ k2) : smapGet (smapErase m k2) k = smapGet m k := by
  induction m with
  | nil => rfl
  | cons kv rest ih =>
    simp only [smapErase] at ih ⊢
    rw [List.filter_cons]
    by_cases hk : kv.1 == k2
    · have hne : (kv.1 == k) = false := by
        simp only [beq_iff_eq] at hk
        simp only [beq_eq_false_iff_ne, hk]
        exact fun hh => h hh.symm
      have hbne : (kv.1 != k2) = false := by simp only [bne, hk, Bool.not_true]
      rw [hbne]
      rw [if_neg Bool.false_ne_true]
      rw [ih]
      simp only [smapGet, List.find?, hne]
    · have hbne : (kv.1 != k2) = true := by simp only [bne, hk, Bool.not_false]
      rw [hbne]
      rw [if_pos rfl]
      simp only [smapGet, List.find?]
      cases hk2 : (kv.1 == k) with
      | true => rfl
      | false =>
        simp only [smapGet, List.find?] at ih
        exact ih

/-- Deleting keys never resurrects an absent key. -/
theorem smapGet_erase_none {α : Type} (m : SMap α) (k k2 : String)
    (h : smapGet m k = none) : smapGet (smapErase m k2) k = none := by
  by_cases hk : k = k2
  · rw [hk]
    exact smapGet_erase_self m k2
  · rw [smapGet_erase_ne m k k2 hk]
    exact h

/-- A key is absent exactly when it is not among the object's keys. -/
theorem smapGet_eq_none_iff {α : Type} (m : SMap α) (k : String) :
    smapGet m k = none ↔ k ∉ smapKeys m := by
  induction m with
  | nil => simp [smapGet, smapKeys]
  | cons kv rest ih =>
    simp only [smapGet, List.find?] at ih ⊢
    simp only [smapKeys, List.map_cons, List.mem_cons] at ih ⊢
    by_cases hk : (kv.1 == k) = true
    · rw [hk]
      simp only [beq_iff_eq] at hk
      simp only [Option.map_some]
      constructor
      · intro hh
        cases hh
      · intro hh
        exact absurd (Or.inl hk.symm) hh
    · rw [Bool.not_eq_true] at hk
      rw [hk]
      rw [ih]
      have hne : kv.1 ≠ k := by simpa [beq_iff_eq] using hk
      constructor
      · intro hh hmem
        rcases hmem with hmem | hmem
        · exact hne hmem.symm
        · exact hh hmem
      · intro hh hmem
        exact hh (Or.inr hmem)

/-- A present key is among the object's keys. -/
theorem mem_keys_of_smapGet {α : Type} (m : SMap α) (k : String) (v : α)
    (h : smapGet m k = some v) : k ∈ smapKeys m := by
  by_contra hk
  rw [← smapGet_eq_none_iff] at hk
  rw [hk] at h
  cases h

/-- Keys after a write: unchanged when the key was present, appended
otherwise. -/
theorem smapKeys_set {α : Type} (m : SMap α) (k : String) (v : α) :
    smapKeys (smapSet m k v) = smapKeys m ∨
      smapKeys (smapSet m k v) = smapKeys m ++ [k] := by
  induction m with
  | nil => right; rfl
  | cons kv rest ih =>
    simp only [smapSet]
    by_cases hk : (kv.1 == k) = true
    · left
      rw [if_pos hk]
      simp only [beq_iff_eq] at hk
      simp [smapKeys, hk]
    · rw [if_neg hk]
      rcases ih with ih | ih
      · left
        simp only [smapKeys, List.map_cons]
        simp only [smapKeys] at ih
        rw [ih]
      · right
        simp only [smapKeys, List.map_cons]
        simp only [smapKeys] at ih
        rw [ih]
        rfl

/-- A write preserves distinctness of keys. -/
theorem smapKeys_set_nodup {α : Type} (m : SMap α) (k : String) (v : α)
    (h : (smapKeys m).Nodup) : (smapKeys (smapSet m k v)).Nodup := by
  induction m with
  | nil => simp [smapSet, smapKeys]
  | cons kv rest ih =>
    simp only [smapSet]
    by_cases hk : (kv.1 == k) = true
    · rw [if_pos hk]
      simp only [beq_iff_eq] at hk
      simp only [smapKeys, List.map_cons, List.nodup_cons] at h ⊢
      rw [← hk]
      exact h
    · rw [if_neg hk]
      simp only [smapKeys, List.map_cons, List.nodup_cons] at h ⊢
      refine ⟨?_, ih h.2⟩
      intro hmem
      have hmem2 : kv.1 ∈ smapKeys (smapSet rest k v) := by
        simpa [smapKeys] using hmem
      rcases smapKeys_set rest k v with hs | hs
      · rw [hs] at hmem2
        exact h.1 (by simpa [smapKeys] using hmem2)
      · rw [hs] at hmem2
        rcases List.mem_append.mp hmem2 with hmem2 | hmem2
        · exact h.1 (by simpa [smapKeys] using hmem2)
        · have : kv.1 = k := by simpa using hmem2
          simp [this] at hk

/-- Spreading over keys not including `k` leaves the read at `k` unchanged. -/
theorem smapGet_spread_not_mem {α : Type} (b a : SMap α) (k : String)
    (h : k ∉ smapKeys b) : smapGet (spread a b) k = smapGet a k := by
  induction b generalizing a with
  | nil => rfl
  | cons kv rest ih =>
    simp only [smapKeys, List.map_cons, List.mem_cons] at h
    push_neg at h
    have step : spread a (kv :: rest) = spread (smapSet a kv.1 kv.2) rest := rfl
    rw [step]
    rw [ih (smapSet a kv.1 kv.2) (by simpa [smapKeys] using h.2)]
    exact smapGet_set_ne a k kv.1 kv.2 h.1

/-- With distinct keys on the right, a key present on the right wins in a
spread. -/
theorem smapGet_spread_mem {α : Type} (b a : SMap α) (k : String) (v : α)
    (hnd : (smapKeys b).Nodup) (h : smapGet b k = some v) :
    smapGet (spread a b) k = some v := by
  induction b generalizing a with
  | nil => cases h
  | cons kv rest ih =>
    have step : spread a (kv :: rest) = spread (smapSet a kv.1 kv.2) rest := rfl
    rw [step]
    simp only [smapKeys, List.map_cons, List.nodup_cons] at hnd
    by_cases hk : (kv.1 == k) = true
    · have hkeq : kv.1 = k := by simpa [beq_iff_eq] using hk
      have hv : v = kv.2 := by
        simp only [smapGet, List.find?, hk, Option.map_some] at h
        exact (Option.some.injEq _ _ ▸ h).symm
      rw [hv, ← hkeq]
      rw [smapGet_spread_not_mem rest (smapSet a kv.1 kv.2) kv.1
        (by simpa [smapKeys] using hnd.1)]
      exact smapGet_set_self a kv.1 kv.2
    · refine ih _ ?_ ?_
      · simpa [smapKeys] using hnd.2
      · simpa only [smapGet, List.find?, hk] using h

/-- The third `normalize` loop only writes allow-listed keys onto the
envelope accumulator. -/
theorem topLevelPass_ret_not_top (pairs : List (String × JValue))
    (ret ctx : SMap JValue) (k : String) (h : k ∉ TOP_LEVEL_PROPERTIES) :
    smapGet (normalizeTopLevelPass pairs ret ctx).1 k = smapGet ret k := by
  induction pairs generalizing ret ctx with
  | nil => rfl
  | cons kv rest ih =>
    simp only [normalizeTopLevelPass]
    by_cases hk : TOP_LEVEL_PROPERTIES.contains kv.1
    · rw [if_pos hk]
      rw [ih (smapSet ret kv.1 kv.2) ctx]
      have hne : k ≠ kv.1 := by
        intro hh
        rw [hh] at h
        exact h (by simpa using hk)
      exact smapGet_set_ne ret k kv.1 kv.2 hne
    · rw [if_neg hk]
      exact ih ret (smapSet ctx kv.1 kv.2)

/-- The third `normalize` loop preserves distinctness of the envelope
accumulator's keys. -/
theorem topLevelPass_ret_nodup (pairs : List (String × JValue))
    (ret ctx : SMap JValue) (h : (smapKeys ret).Nodup) :
    (smapKeys (normalizeTopLevelPass pairs ret ctx).1).Nodup := by
  induction pairs generalizing ret ctx with
  | nil => exact h
  | cons kv rest ih =>
    simp only [normalizeTopLevelPass]
    by_cases hk : TOP_LEVEL_PROPERTIES.contains kv.1
    · rw [if_pos hk]
      exact ih (smapSet ret kv.1 kv.2) ctx (smapKeys_set_nodup ret kv.1 kv.2 h)
    · rw [if_neg hk]
      exact ih ret (smapSet ctx kv.1 kv.2) h

/-- The first `normalize` loop never resurrects a key already deleted from
the options object. -/
theorem integPass_opts_none (list : List String)
    (pairs : List (String × JValue)) (integ opts : SMap JValue) (k : String)
    (h : smapGet opts k = none) :
    smapGet (normalizeIntegrationsPass list pairs integ opts).2 k = none := by
  induction pairs generalizing integ opts with
  | nil => exact h
  | cons kv rest ih =>
    simp only [normalizeIntegrationsPass]
    by_cases hk : isIntegrationName list kv.1
    · rw [if_pos hk]
      exact ih _ (smapErase opts kv.1) (smapGet_erase_none opts k kv.1 h)
    · rw [if_neg hk]
      exact ih integ opts h

/-- Every key recognized as a destination name is deleted from the options
object by the first `normalize` loop. -/
theorem integPass_opts_erased (list : List String)
    (pairs : List (String × JValue)) (integ opts : SMap JValue)
    (k : String) (v : JValue) (hmem : (k, v) ∈ pairs)
    (hrec : isIntegrationName list k = true) :
    smapGet (normalizeIntegrationsPass list pairs integ opts).2 k = none := by
  induction pairs generalizing integ opts with
  | nil => cases hmem
  | cons kv rest ih =>
    simp only [normalizeIntegrationsPass]
    rcases List.mem_cons.mp hmem with hmem | hmem
    · have hk1 : kv.1 = k := by rw [← hmem]
      rw [hk1]
      rw [if_pos hrec]
      exact integPass_opts_none list rest _ _ k (smapGet_erase_self opts k)
    · by_cases hk : isIntegrationName list kv.1
      · rw [if_pos hk]
        exact ih _ _ hmem
      · rw [if_neg hk]
        exact ih integ opts hmem

/-- The providers loop does not touch integration entries for keys that do
not occur among the provider keys. -/
theorem providersPass_not_mem (list : List String)
    (pairs : List (String × JValue)) (integ : SMap JValue) (k : String)
    (h : k ∉ smapKeys pairs) :
    smapGet (normalizeProvidersPass list pairs integ) k = smapGet integ k := by
  induction pairs generalizing integ with
  | nil => rfl
  | cons kv rest ih =>
    simp only [smapKeys, List.map_cons, List.mem_cons] at h
    push_neg at h
    have hrest : k ∉ smapKeys rest := by simpa [smapKeys] using h.2
    simp only [normalizeProvidersPass]
    by_cases h1 : isIntegrationName list kv.1
    · simp only [h1, Bool.not_true, Bool.false_eq_true, if_false]
      by_cases h2 : isObjType (smapGet integ kv.1)
      · rw [if_pos h2]
        exact ih integ hrest
      · rw [if_neg h2]
        by_cases h3 : ((smapGet integ kv.1).isSome && isBoolVal kv.2) = true
        · rw [if_pos h3]
          exact ih integ hrest
        · rw [if_neg h3]
          rw [ih (smapSet integ kv.1 kv.2) hrest]
          exact smapGet_set_ne integ k kv.1 kv.2 h.1
    · simp only [h1]
      simp only [Bool.not_false, if_true]
      exact ih integ hrest

/-- Full characterization of one provider entry's effect: with distinct
provider keys, the entry for `k` is written exactly when `k` is recognized
as a destination, the current integrations value is not an object, and it is
not both already defined and paired with a boolean provider value; otherwise
the existing integrations value is untouched. -/
theorem providersPass_char (list : List String)
    (pairs : List (String × JValue)) (integ : SMap JValue) (k : String)
    (v : JValue) (hnd : (smapKeys pairs).Nodup) (h : smapGet pairs k = some v) :
    smapGet (normalizeProvidersPass list pairs integ) k =
      (if isIntegrationName list k
          && !(isObjType (smapGet integ k))
          && !((smapGet integ k).isSome && isBoolVal v) then
        some v
      else smapGet integ k) := by
  induction pairs generalizing integ with
  | nil => cases h
  | cons kv rest ih =>
    simp only [smapKeys, List.map_cons, List.nodup_cons] at hnd
    have hrestnd : (smapKeys rest).Nodup := by simpa [smapKeys] using hnd.2
    simp only [normalizeProvidersPass]
    by_cases hk : (kv.1 == k) = true
    · have hkeq : kv.1 = k := by simpa [beq_iff_eq] using hk
      have hv : v = kv.2 := by
        simp only [smapGet, List.find?, hk, Option.map_some] at h
        exact ((Option.some.injEq _ _).mp h).symm
      have hrest : k ∉ smapKeys rest := by
        rw [← hkeq]
        simpa [smapKeys] using hnd.1
      rw [hkeq, ← hv]
      by_cases h1 : isIntegrationName list k
      · simp only [h1, Bool.not_true, Bool.false_eq_true, if_false, Bool.true_and]
        by_cases h2 : isObjType (smapGet integ k)
        · rw [if_pos h2]
          simp only [h2, Bool.not_true, Bool.false_and, Bool.false_eq_true, if_false]
          exact providersPass_not_mem list rest integ k hrest
        · rw [if_neg h2]
          have h2f : isObjType (smapGet integ k) = false := by
            simpa using h2
          simp only [h2f, Bool.not_false, Bool.true_and]
          by_cases h3 : ((smapGet integ k).isSome && isBoolVal v) = true
          · rw [if_pos h3]
            simp only [h3, Bool.not_true, Bool.false_eq_true, if_false]
            exact providersPass_not_mem list rest integ k hrest
          · rw [if_neg h3]
            have h3f : ((smapGet integ k).isSome && isBoolVal v) = false := by
              simpa using h3
            simp only [h3f, Bool.not_false, if_true]
            rw [providersPass_not_mem list rest (smapSet integ k v) k hrest]
            exact smapGet_set_self integ k v
      · have h1f : isIntegrationName list k = false := by simpa using h1
        simp only [h1f, Bool.not_false, if_true, Bool.false_and, Bool.false_eq_true, if_false]
        exact providersPass_not_mem list rest integ k hrest
    · have hne : kv.1 ≠ k := by simpa [beq_iff_eq] using hk
      have h2 : smapGet rest k = some v := by
        simpa only [smapGet, List.find?, hk] using h
      by_cases hb1 : isIntegrationName list kv.1
      · simp only [hb1, Bool.not_true, Bool.false_eq_true, if_false]
        by_cases hb2 : isObjType (smapGet integ kv.1)
        · rw [if_pos hb2]
          exact ih integ hrestnd h2
        · rw [if_neg hb2]
          by_cases hb3 : ((smapGet integ kv.1).isSome && isBoolVal kv.2) = true
          · rw [if_pos hb3]
            exact ih integ hrestnd h2
          · rw [if_neg hb3]
            rw [ih (smapSet integ kv.1 kv.2) hrestnd h2]
            rw [smapGet_set_ne integ k kv.1 kv.2 (fun hh => hne hh.symm)]
      · simp only [hb1, Bool.not_false, if_true]
        exact ih integ hrestnd h2

/-- The keys of the envelope accumulator that `normalize` builds are
distinct. -/
theorem normalizeFull_ret_nodup (hash : String → String) (uuid : String)
    (msg : SMap JValue) (list : List String) :
    (smapKeys (smapSet (smapSet
      (normalizeTopLevelPass
        (smapErase (normalizeIntegrationsPass list
          (asObj (smapGet msg "options"))
          (asObj (smapGet (asObj (smapGet msg "options")) "integrations"))
          (asObj (smapGet msg "options"))).2 "providers")
        [("messageId", JValue.str ("ajs-" ++ hash (serializeMsg msg ++ uuid))),
         ("integrations", JValue.obj []),
         ("context", JValue.obj [])]
        (asObj (smapGet (asObj (smapGet msg "options")) "context"))).1
      "integrations"
      (JValue.obj (normalizeProvidersPass list
        (asObj (smapGet (asObj (smapGet msg "options")) "providers"))
        (normalizeIntegrationsPass list
          (asObj (smapGet msg "options"))
          (asObj (smapGet (asObj (smapGet msg "options")) "integrations"))
          (asObj (smapGet msg "options"))).1)))
      "context"
      (JValue.obj (normalizeTopLevelPass
        (smapErase (normalizeIntegrationsPass list
          (asObj (smapGet msg "options"))
          (asObj (smapGet (asObj (smapGet msg "options")) "integrations"))
          (asObj (smapGet msg "options"))).2 "providers")
        [("messageId", JValue.str ("ajs-" ++ hash (serializeMsg msg ++ uuid))),
         ("integrations", JValue.obj []),
         ("context", JValue.obj [])]
        (asObj (smapGet (asObj (smapGet msg "options")) "context"))).2))).Nodup := by
  apply smapKeys_set_nodup
  apply smapKeys_set_nodup
  apply topLevelPass_ret_nodup
  have hk : smapKeys
      [("messageId", JValue.str ("ajs-" ++ hash (serializeMsg msg ++ uuid))),
       ("integrations", JValue.obj []),
       ("context", JValue.obj [])] = ["messageId", "integrations", "context"] := rfl
  rw [hk]
  decide

/-- The envelope returned by `normalize` carries the freshly generated
`messageId`. -/
theorem normalizeMsg_messageId (hash : String → String) (uuid : String)
    (msg : SMap JValue) (list : List String) :
    smapGet (normalizeMsg hash uuid msg list) "messageId" =
      some (JValue.str ("ajs-" ++ hash (serializeMsg msg ++ uuid))) := by
  simp only [normalizeMsg, normalizeFull]
  apply smapGet_spread_mem
  · exact normalizeFull_ret_nodup hash uuid msg list
  · rw [smapGet_set_ne _ _ "context" _ (by decide)]
    rw [smapGet_set_ne _ _ "integrations" _ (by decide)]
    rw [topLevelPass_ret_not_top _ _ _ _ (by decide)]
    rfl

/-- The envelope returned by `normalize` has no `options` key. -/
theorem normalizeMsg_no_options (hash : String → String) (uuid : String)
    (msg : SMap JValue) (list : List String) :
    smapGet (normalizeMsg hash uuid msg list) "options" = none := by
  simp only [normalizeMsg, normalizeFull]
  have hret : smapGet (smapSet (smapSet
      (normalizeTopLevelPass
        (smapErase (normalizeIntegrationsPass list
          (asObj (smapGet msg "options"))
          (asObj (smapGet (asObj (smapGet msg "options")) "integrations"))
          (asObj (smapGet msg "options"))).2 "providers")
        [("messageId", JValue.str ("ajs-" ++ hash (serializeMsg msg ++ uuid))),
         ("integrations", JValue.obj []),
         ("context", JValue.obj [])]
        (asObj (smapGet (asObj (smapGet msg "options")) "context"))).1
      "integrations"
      (JValue.obj (normalizeProvidersPass list
        (asObj (smapGet (asObj (smapGet msg "options")) "providers"))
        (normalizeIntegrationsPass list
          (asObj (smapGet msg "options"))
          (asObj (smapGet (asObj (smapGet msg "options")) "integrations"))
          (asObj (smapGet msg "options"))).1)))
      "context"
      (JValue.obj (normalizeTopLevelPass
        (smapErase (normalizeIntegrationsPass list
          (asObj (smapGet msg "options"))
          (asObj (smapGet (asObj (smapGet msg "options")) "integrations"))
          (asObj (smapGet msg "options"))).2 "providers")
        [("messageId", JValue.str ("ajs-" ++ hash (serializeMsg msg ++ uuid))),
         ("integrations", JValue.obj []),
         ("context", JValue.obj [])]
        (asObj (smapGet (asObj (smapGet msg "options")) "context"))).2))
      "options" = none := by
    rw [smapGet_set_ne _ _ "context" _ (by decide)]
    rw [smapGet_set_ne _ _ "integrations" _ (by decide)]
    rw [topLevelPass_ret_not_top _ _ _ _ (by decide)]
    rfl
  rw [smapGet_spread_not_mem _ _ _ ((smapGet_eq_none_iff _ _).mp hret)]
  exact smapGet_erase_self msg "options"

/-! ## Dispatch helper lemmas -/

/-- A dispatch produces exactly one outcome per registered destination, in
registration order. -/
theorem dispatch_fst_eq (cfg : DispatchConfig) (method : String)
    (facade : Payload) :
    (applyIntegrationMiddlewares cfg method facade).map Prod.fst =
      cfg.integrations := by
  unfold applyIntegrationMiddlewares
  rw [List.map_map]
  have hcomp : (Prod.fst ∘ fun name => (name, dispatchOne cfg method facade name)) =
      (id : String → String) := rfl
  rw [hcomp, List.map_id]

/-- Every registered destination's outcome appears in the dispatch result. -/
theorem dispatch_mem (cfg : DispatchConfig) (method : String)
    (facade : Payload) (B : String) (h : B ∈ cfg.integrations) :
    (B, dispatchOne cfg method facade B) ∈
      applyIntegrationMiddlewares cfg method facade := by
  unfold applyIntegrationMiddlewares
  exact List.mem_map.mpr ⟨B, h, rfl⟩

/-- A handler can only have run for a name that is registered. -/
theorem mem_of_mem_invokedNames (cfg : DispatchConfig) (method : String)
    (facade : Payload) (d : String)
    (h : d ∈ invokedNames (applyIntegrationMiddlewares cfg method facade)) :
    d ∈ cfg.integrations := by
  unfold invokedNames applyIntegrationMiddlewares at h
  rcases List.mem_map.mp h with ⟨r, hr, hfst⟩
  rcases List.mem_filter.mp hr with ⟨hr2, _⟩
  rcases List.mem_map.mp hr2 with ⟨name, hname, heq⟩
  rw [← heq] at hfst
  simpa [← hfst] using hname

/-! ## Claim theorems -/

/-- C1: a destination name explicitly disabled in the initialization options
(entry `false`, or `All` `false` with no entry) is never handed to any
handler by a subsequent facade dispatch, whatever the per-call envelope (and
its `integrations` override) contains: `initialize` refuses to construct the
integration, so it is absent from the table dispatch iterates. -/
theorem c1_disabled_at_init_never_invoked (registered settingsKeys : List String)
    (m : SMap Bool) (d : String)
    (hdis : smapGet m d = some false ∨
      (smapGet m "All" = some false ∧ smapGet m d = none))
    (cfg : DispatchConfig) (method : String) (facade : Payload)
    (hcfg : cfg.integrations =
      initializeIntegrations registered settingsKeys (some m)) :
    d ∉ invokedNames (applyIntegrationMiddlewares cfg method facade) := by
  intro hmem
  have hreg := mem_of_mem_invokedNames cfg method facade d hmem
  rw [hcfg] at hreg
  have hdab : disabledAtInit (some m) d = true := by
    rcases hdis with h | h
    · simp [disabledAtInit, h]
    · simp [disabledAtInit, h.1, h.2]
  unfold initializeIntegrations at hreg
  rcases List.mem_filter.mp hreg with ⟨_, hok⟩
  rw [hdab] at hok
  cases hok

/-- C1 witness: with integration `X` known and configured but disabled at
initialization, a `track` whose per-call options re-enable `X` still never
invokes it. -/
theorem c1_witness :
    "X" ∉ invokedNames (applyIntegrationMiddlewares
      { integrations := initializeIntegrations ["X"] ["X"] (some [("X", false)]),
        failedInitializations := [],
        sourceMWs := [],
        integrationMWs := [],
        destinationMWs := fun _ => none,
        handler := fun _ _ _ => Except.ok () }
      "track"
      [("integrations", JValue.obj [("X", JValue.bool true)])]) :=
  c1_disabled_at_init_never_invoked ["X"] ["X"] [("X", false)] "X"
    (Or.inl (by decide)) _ "track"
    [("integrations", JValue.obj [("X", JValue.bool true)])] rfl

/-- C2 (counterexample): with one destination `X` whose integration-level
middleware adds a marker field and whose destination-level chain is the
identity, the handler receives the unmodified copy — the destination-level
chain was handed `facadeCopy`, not the integration chain's output, so the
integration-level modification is lost, contrary to the claim. -/
theorem c2_counterexample :
    dispatchOne c2Config "track" [] "X" = DestResult.invoked [] ∧
    applyChain (c2Config.integrationMWs.map (fun m => m "X")) [] =
      Except.ok (some [("m", JValue.bool true)]) ∧
    ([("m", JValue.bool true)] : Payload) ≠ ([] : Payload) := by
  refine ⟨rfl, rfl, by decide⟩

/-- C2 (amended): when a destination has a registered destination-level
chain, that chain is applied to the destination's fresh deep copy of the
envelope (`facadeCopy`), not to the integration-level chain's output;
integration-level modifications therefore reach the handler only when no
destination-level middleware is registered. -/
theorem c2_destination_chain_gets_facade_copy (cfg : DispatchConfig)
    (method : String) (facade : Payload) (name : String)
    (chain : List MiddlewareFn) (r : Payload)
    (hen : enabled (integrationsOf facade) name = true)
    (hfail : cfg.failedInitializations.contains name = false)
    (hint : applyChain (cfg.integrationMWs.map (fun m => m name)) facade =
      Except.ok (some r))
    (hdest : cfg.destinationMWs name = some chain) :
    dispatchOne cfg method facade name =
      (match applyChain chain facade with
       | Except.error e => DestResult.threwInMiddleware e
       | Except.ok none => DestResult.droppedByDestinationMW
       | Except.ok (some r2) =>
         match cfg.handler name method r2 with
         | Except.ok _ => DestResult.invoked r2
         | Except.error e => DestResult.handlerThrew e) := by
  simp only [dispatchOne]
  rw [hen, hfail, hint, hdest]
  rfl

/-- C2 (amended) witness: the concrete single-destination configuration,
where the identity destination-level chain passes the original copy to the
always-succeeding handler. -/
theorem c2_witness :
    dispatchOne c2Config "track" [] "X" = DestResult.invoked [] :=
  Eq.trans
    (c2_destination_chain_gets_facade_copy c2Config "track" [] "X"
      [fun p => Except.ok (some p)] [("m", JValue.bool true)]
      rfl rfl rfl rfl)
    rfl

/-- C3: a handler exception during dispatch is caught inside that
destination's iteration: the dispatch still yields one outcome per
registered destination in order, every destination's outcome is its own
independently computed one, and any other destination whose enablement,
health, chains and handler are in order is still invoked. -/
theorem c3_handler_exception_isolated (cfg : DispatchConfig) (method : String)
    (facade : Payload) (A : String) (e : String)
    (hthrew : dispatchOne cfg method facade A = DestResult.handlerThrew e) :
    (applyIntegrationMiddlewares cfg method facade).map Prod.fst =
        cfg.integrations ∧
    (∀ B, B ∈ cfg.integrations →
      (B, dispatchOne cfg method facade B) ∈
        applyIntegrationMiddlewares cfg method facade) ∧
    (∀ B r, B ∈ cfg.integrations → B ≠ A →
      enabled (integrationsOf facade) B = true →
      cfg.failedInitializations.contains B = false →
      applyChain (cfg.integrationMWs.map (fun m => m B)) facade =
        Except.ok (some r) →
      cfg.destinationMWs B = none →
      cfg.handler B method r = Except.ok () →
      (B, DestResult.invoked r) ∈
        applyIntegrationMiddlewares cfg method facade) := by
  refine ⟨dispatch_fst_eq cfg method facade, dispatch_mem cfg method facade, ?_⟩
  intro B r hmem hne hen hfail hchain hdest hhand
  have hone : dispatchOne cfg method facade B = DestResult.invoked r := by
    simp only [dispatchOne, hen, hfail, hchain, hdest, hhand]
    rfl
  rw [← hone]
  exact dispatch_mem cfg method facade B hmem

/-- C3 witness: destination `A`'s handler throws, yet `B` (registered after
`A`) is still invoked with its payload. -/
theorem c3_witness :
    ("B", DestResult.invoked []) ∈
      applyIntegrationMiddlewares c3ThrowConfig "track" [] :=
  (c3_handler_exception_isolated c3ThrowConfig "track" [] "A" "boom" rfl).2.2
    "B" [] (by decide) (by decide) rfl rfl rfl rfl rfl

/-- C4: destinations work on separate copies — when `A`'s integration-level
chain drops its copy of the envelope, `A` gets the dropped outcome while `B`
still receives the payload computed by `B`'s own chain from the original
envelope, and `B`'s handler is invoked with it. -/
theorem c4_drop_isolation (cfg : DispatchConfig) (method : String)
    (facade : Payload) (A B : String) (q : Payload)
    (hAB : A ≠ B)
    (henA : enabled (integrationsOf facade) A = true)
    (hfailA : cfg.failedInitializations.contains A = false)
    (hdropA : applyChain (cfg.integrationMWs.map (fun m => m A)) facade =
      Except.ok none)
    (hmemB : B ∈ cfg.integrations)
    (henB : enabled (integrationsOf facade) B = true)
    (hfailB : cfg.failedInitializations.contains B = false)
    (hchainB : applyChain (cfg.integrationMWs.map (fun m => m B)) facade =
      Except.ok (some q))
    (hdestB : cfg.destinationMWs B = none)
    (hhandB : cfg.handler B method q = Except.ok ()) :
    dispatchOne cfg method facade A = DestResult.droppedByIntegrationMW ∧
    (B, DestResult.invoked q) ∈
      applyIntegrationMiddlewares cfg method facade := by
  constructor
  · simp only [dispatchOne, henA, hfailA, hdropA]
    rfl
  · have hone : dispatchOne cfg method facade B = DestResult.invoked q := by
      simp only [dispatchOne, henB, hfailB, hchainB, hdestB, hhandB]
      rfl
    rw [← hone]
    exact dispatch_mem cfg method facade B hmemB

/-- C4 witness: the shared integration-level middleware drops for `A` and
tags the payload for `B`; `B`'s handler receives the tagged payload built
from the original envelope. -/
theorem c4_witness :
    dispatchOne c34Config "track" [] "A" = DestResult.droppedByIntegrationMW ∧
    ("B", DestResult.invoked [("seen", JValue.str "B")]) ∈
      applyIntegrationMiddlewares c34Config "track" [] :=
  c4_drop_isolation c34Config "track" [] "A" "B" [("seen", JValue.str "B")]
    (by decide) rfl rfl rfl (by decide) rfl rfl rfl rfl rfl

/-- C5: when the tracking plan suppresses a `track` event (specific entry
disabled, or no specific entry and the default entry disabled), the
effective enablement map is exactly the forced
`\x7bAll: false, "Segment.io": true\x7d` — the primary collection
destination stays enabled, every other destination is off, and any per-call
override is overridden. -/
theorem c5_plan_disabled_forces_primary (initInteg : Option (SMap JValue))
    (events : SMap PlanEntry) (event : String) (callOpts : SMap JValue)
    (hdis : planDisablesTrackEvent events event = true) :
    resolveTrackEnablement initInteg events event callOpts = forcedTrackMap ∧
    smapGet (resolveTrackEnablement initInteg events event callOpts)
      PRIMARY_DEST = some (JValue.bool true) ∧
    smapGet (resolveTrackEnablement initInteg events event callOpts)
      "All" = some (JValue.bool false) ∧
    (∀ d2, d2 ≠ PRIMARY_DEST → d2 ≠ "All" →
      smapGet (resolveTrackEnablement initInteg events event callOpts) d2 =
        none) := by
  have heq : resolveTrackEnablement initInteg events event callOpts =
      forcedTrackMap := by
    unfold resolveTrackEnablement
    rw [if_pos hdis]
  refine ⟨heq, ?_, ?_, ?_⟩
  · rw [heq]
    rfl
  · rw [heq]
    rfl
  · intro d2 h1 h2
    rw [heq]
    have e1 : ("All" == d2) = false := by
      simp only [beq_eq_false_iff_ne]
      exact fun hh => h2 hh.symm
    have e2 : (PRIMARY_DEST == d2) = false := by
      simp only [beq_eq_false_iff_ne]
      exact fun hh => h1 hh.symm
    simp only [forcedTrackMap, smapGet, List.find?, e1, e2]
    rfl

/-- C5 witness: a plan that disables the event `Order Completed` forces the
primary-only map even against a per-call override enabling another
destination. -/
theorem c5_witness :
    resolveTrackEnablement (some [("Other", JValue.bool true)])
        [("Order Completed", PlanEntry.mk false [])] "Order Completed"
        [("Other", JValue.bool true)] = forcedTrackMap ∧
    smapGet (resolveTrackEnablement (some [("Other", JValue.bool true)])
        [("Order Completed", PlanEntry.mk false [])] "Order Completed"
        [("Other", JValue.bool true)]) "Other" = none :=
  ⟨(c5_plan_disabled_forces_primary (some [("Other", JValue.bool true)])
      [("Order Completed", PlanEntry.mk false [])] "Order Completed"
      [("Other", JValue.bool true)] (by decide)).1,
   (c5_plan_disabled_forces_primary (some [("Other", JValue.bool true)])
      [("Order Completed", PlanEntry.mk false [])] "Order Completed"
      [("Other", JValue.bool true)] (by decide)).2.2.2 "Other"
      (by decide) (by decide)⟩

/-- Appending to the fixed `ajs-` prefix never yields the empty string. -/
theorem ajs_append_ne_empty (t : String) : ("ajs-" ++ t) ≠ "" := by
  intro h
  have h0 : ("ajs-" ++ t).length = 0 := by rw [h]; rfl
  rw [String.length_append] at h0
  have h4 : "ajs-".length = 4 := rfl
  omega

/-- String append is left-cancellative. -/
theorem string_append_left_cancel (s t u : String) (h : s ++ t = s ++ u) :
    t = u := by
  have hd : (s ++ t).data = (s ++ u).data := by rw [h]
  rw [String.data_append, String.data_append] at hd
  exact String.ext (List.append_cancel_left hd)

/-- C6: every normalized envelope carries a `messageId` of the shape
`ajs-` followed by the hash of the serialized draft and the fresh random
component; it is non-empty, and two normalizations of the identical draft
with distinct random components produce distinct ids (for any hash that
does not collide, e.g. an injective one). -/
theorem c6_messageId_prefix_and_fresh (hash : String → String)
    (msg : SMap JValue) (list : List String) (u1 u2 : String)
    (hinj : Function.Injective hash) (hu : u1 ≠ u2) :
    ∃ t1 t2 : String,
      smapGet (normalizeMsg hash u1 msg list) "messageId" =
        some (JValue.str ("ajs-" ++ t1)) ∧
      smapGet (normalizeMsg hash u2 msg list) "messageId" =
        some (JValue.str ("ajs-" ++ t2)) ∧
      ("ajs-" ++ t1) ≠ "" ∧
      ("ajs-" ++ t2) ≠ "" ∧
      ("ajs-" ++ t1) ≠ ("ajs-" ++ t2) := by
  refine ⟨hash (serializeMsg msg ++ u1), hash (serializeMsg msg ++ u2),
    normalizeMsg_messageId hash u1 msg list,
    normalizeMsg_messageId hash u2 msg list,
    ajs_append_ne_empty _, ajs_append_ne_empty _, ?_⟩
  intro h
  have h1 := string_append_left_cancel _ _ _ h
  have h2 := hinj h1
  have h3 := string_append_left_cancel _ _ _ h2
  exact hu h3

/-- C6 witness: with the identity hash and distinct random components `a`
and `b`, the empty draft normalizes to two distinct non-empty `ajs-`
prefixed message ids. -/
theorem c6_witness :
    ∃ t1 t2 : String,
      smapGet (normalizeMsg id "a" [] []) "messageId" =
        some (JValue.str ("ajs-" ++ t1)) ∧
      smapGet (normalizeMsg id "b" [] []) "messageId" =
        some (JValue.str ("ajs-" ++ t2)) ∧
      ("ajs-" ++ t1) ≠ "" ∧
      ("ajs-" ++ t2) ≠ "" ∧
      ("ajs-" ++ t1) ≠ ("ajs-" ++ t2) :=
  c6_messageId_prefix_and_fresh id [] [] "a" "b" Function.injective_id
    (by decide)

/-- C7: a provider entry (with the providers object's keys distinct, as JS
object keys are) is written into the integrations map only when the current
integrations value for that key is not an object and the entry is not both
already defined and paired with a boolean provider value; in every other
case the provider entry is ignored and the existing integrations value is
preserved. -/
theorem c7_providers_merge_rule (list : List String)
    (providers integ : SMap JValue) (k : String) (v : JValue)
    (hnd : (smapKeys providers).Nodup) (hget : smapGet providers k = some v) :
    ((isIntegrationName list k
        && !(isObjType (smapGet integ k))
        && !((smapGet integ k).isSome && isBoolVal v)) = true →
      smapGet (normalizeProvidersPass list providers integ) k = some v) ∧
    (isObjType (smapGet integ k) = true ∨
        ((smapGet integ k).isSome && isBoolVal v) = true →
      smapGet (normalizeProvidersPass list providers integ) k =
        smapGet integ k) ∧
    (smapGet (normalizeProvidersPass list providers integ) k ≠
        smapGet integ k →
      isObjType (smapGet integ k) = false ∧
      ((smapGet integ k).isSome && isBoolVal v) = false) := by
  have hchar := providersPass_char list providers integ k v hnd hget
  refine ⟨?_, ?_, ?_⟩
  · intro hcond
    rw [hchar, if_pos hcond]
  · intro hcond
    rw [hchar]
    have hfalse : (isIntegrationName list k
        && !(isObjType (smapGet integ k))
        && !((smapGet integ k).isSome && isBoolVal v)) = false := by
      rcases hcond with hcond | hcond
      · simp [hcond]
      · simp [hcond]
    rw [hfalse]
    rfl
  · intro hchanged
    by_cases h2 : isObjType (smapGet integ k) = true
    · exact absurd (by rw [hchar]; simp [h2]) hchanged
    · by_cases h3 : ((smapGet integ k).isSome && isBoolVal v) = true
      · exact absurd (by rw [hchar]; simp [h3]) hchanged
      · exact ⟨by simpa using h2, by simpa using h3⟩

/-- C7 witness: a boolean provider entry for a recognized destination with
no existing integrations entry is written; an entry for a destination whose
integrations value is already an object is ignored. -/
theorem c7_witness :
    smapGet (normalizeProvidersPass ["A"] [("A", JValue.bool true)] []) "A" =
      some (JValue.bool true) ∧
    smapGet (normalizeProvidersPass ["B"] [("B", JValue.bool true)]
        [("B", JValue.obj [])]) "B" = some (JValue.obj []) :=
  ⟨(c7_providers_merge_rule ["A"] [("A", JValue.bool true)] [] "A"
      (JValue.bool true) (by decide) (by decide)).1 (by decide),
   (c7_providers_merge_rule ["B"] [("B", JValue.bool true)]
      [("B", JValue.obj [])] "B" (JValue.bool true) (by decide)
      (by decide)).2.1 (Or.inl (by decide))⟩

/-- The startup loop's fold, from any accumulator: both recorded lists
extend by exactly the names whose `initialize()` threw, in order. -/
theorem runInitialize_fold_spec (names : List String)
    (b : String → Except String Unit) (acc : InitRunResult) :
    names.foldl
      (fun acc name =>
        match b name with
        | Except.ok _ => acc
        | Except.error _ =>
          { failedInitializations := acc.failedInitializations ++ [name],
            readyCalled := acc.readyCalled ++ [name] })
      acc =
    { failedInitializations := acc.failedInitializations ++
        names.filter (fun n => match b n with
          | Except.ok _ => false
          | Except.error _ => true),
      readyCalled := acc.readyCalled ++
        names.filter (fun n => match b n with
          | Except.ok _ => false
          | Except.error _ => true) } := by
  induction names generalizing acc with
  | nil => simp
  | cons n rest ih =>
    rw [List.foldl_cons, List.filter_cons]
    cases hb : b n with
    | ok u =>
      rw [ih]
      simp [hb]
    | error e =>
      rw [ih]
      simp [hb]

/-- Membership in the recorded failure list characterized. -/
theorem mem_runInitialize_failed (names : List String)
    (b : String → Except String Unit) (d : String) :
    d ∈ (runInitialize names b).failedInitializations ↔
      d ∈ names ∧ ∃ e, b d = Except.error e := by
  unfold runInitialize
  rw [runInitialize_fold_spec]
  simp only [List.nil_append, List.mem_filter]
  constructor
  · intro h
    refine ⟨h.1, ?_⟩
    have := h.2
    cases hb : b d with
    | ok u =>
      rw [hb] at this
      cases this
    | error e => exact ⟨e, rfl⟩
  · intro h
    rcases h.2 with ⟨e, he⟩
    exact ⟨h.1, by rw [he]⟩

/-- C8: once a destination's `initialize()` throws at startup, the name is
recorded in `failedInitializations` and its `ready()` is still called (so
global readiness is not blocked), every subsequent dispatch in the session
skips it before any chain or handler runs, and destinations whose
initialization succeeded are dispatched exactly as if no failure had been
recorded. -/
theorem c8_failed_init_permanently_skipped (names : List String)
    (b : String → Except String Unit) (d : String) (e : String)
    (hmem : d ∈ names) (herr : b d = Except.error e) :
    d ∈ (runInitialize names b).failedInitializations ∧
    d ∈ (runInitialize names b).readyCalled ∧
    (∀ cfg method facade,
      cfg.failedInitializations = (runInitialize names b).failedInitializations →
      (dispatchOne cfg method facade d).handlerInvoked = false) ∧
    (∀ d2, (∃ u, b d2 = Except.ok u) →
      d2 ∉ (runInitialize names b).failedInitializations ∧
      (∀ cfg method facade,
        cfg.failedInitializations =
          (runInitialize names b).failedInitializations →
        dispatchOne cfg method facade d2 =
          dispatchOne { cfg with failedInitializations := [] } method facade
            d2)) := by
  have hfailed : d ∈ (runInitialize names b).failedInitializations :=
    (mem_runInitialize_failed names b d).mpr ⟨hmem, e, herr⟩
  have hready : d ∈ (runInitialize names b).readyCalled := by
    unfold runInitialize at hfailed ⊢
    rw [runInitialize_fold_spec] at hfailed ⊢
    exact hfailed
  refine ⟨hfailed, hready, ?_, ?_⟩
  · intro cfg method facade hcfg
    have hmemc : d ∈ cfg.failedInitializations := by
      rw [hcfg]
      exact hfailed
    simp only [dispatchOne]
    by_cases hen : enabled (integrationsOf facade) d
    · simp [hen, hmemc, DestResult.handlerInvoked]
    · simp [hen, DestResult.handlerInvoked]
  · intro d2 hok
    have hnot : d2 ∉ (runInitialize names b).failedInitializations := by
      intro hmem2
      rcases ((mem_runInitialize_failed names b d2).mp hmem2).2 with ⟨e2, he2⟩
      rcases hok with ⟨u, hu⟩
      rw [hu] at he2
      cases he2
    refine ⟨hnot, ?_⟩
    intro cfg method facade hcfg
    have hnotmem : d2 ∉ cfg.failedInitializations := by
      rw [hcfg]
      exact hnot
    simp only [dispatchOne]
    simp [hnotmem]

/-- C8 witness: of two registered integrations, `F` throws during startup
and `G` succeeds; `F` is recorded failed and marked ready, dispatch skips
`F`'s handler, and `G` dispatches as if nothing failed. -/
theorem c8_witness :
    "F" ∈ (runInitialize ["F", "G"]
      (fun n => if n == "F" then Except.error "crash" else Except.ok ())).failedInitializations ∧
    "F" ∈ (runInitialize ["F", "G"]
      (fun n => if n == "F" then Except.error "crash" else Except.ok ())).readyCalled ∧
    (dispatchOne
      { integrations := ["F", "G"],
        failedInitializations := (runInitialize ["F", "G"]
          (fun n => if n == "F" then Except.error "crash" else Except.ok ())).failedInitializations,
        sourceMWs := [],
        integrationMWs := [],
        destinationMWs := fun _ => none,
        handler := fun _ _ _ => Except.ok () }
      "track" [] "F").handlerInvoked = false := by
  have h := c8_failed_init_permanently_skipped ["F", "G"]
    (fun n => if n == "F" then Except.error "crash" else Except.ok ())
    "F" "crash" (by decide) rfl
  exact ⟨h.1, h.2.1, h.2.2.1 _ "track" [] rfl⟩

/-- C9: `normalize` mutates its input — after the call the draft has no
`options` field, every key of the caller's options object that was
recognized as a destination name has been deleted from it, and the returned
envelope itself carries no `options` key. -/
theorem c9_normalize_strips_options (hash : String → String) (uuid : String)
    (msg : SMap JValue) (list : List String) :
    smapGet (normalizeFull hash uuid msg list).msgAfter "options" = none ∧
    (∀ k v, (k, v) ∈ asObj (smapGet msg "options") →
      isIntegrationName list k = true →
      smapGet (normalizeFull hash uuid msg list).optsAfter k = none) ∧
    smapGet (normalizeFull hash uuid msg list).env "options" = none := by
  refine ⟨?_, ?_, normalizeMsg_no_options hash uuid msg list⟩
  · show smapGet (smapErase msg "options") "options" = none
    exact smapGet_erase_self msg "options"
  · intro k v hmem hrec
    show smapGet (smapErase (normalizeIntegrationsPass list
      (asObj (smapGet msg "options"))
      (asObj (smapGet (asObj (smapGet msg "options")) "integrations"))
      (asObj (smapGet msg "options"))).2 "providers") k = none
    apply smapGet_erase_none
    exact integPass_opts_erased list (asObj (smapGet msg "options")) _ _ k v
      hmem hrec

/-- C9 witness: a draft whose options carry the recognized destination key
`A` comes back with the key deleted from the options object, the draft's
`options` field gone, and no `options` key on the envelope. -/
theorem c9_witness :
    smapGet (normalizeFull id "u"
      [("options", JValue.obj [("A", JValue.bool true)])] ["A"]).msgAfter
      "options" = none ∧
    smapGet (normalizeFull id "u"
      [("options", JValue.obj [("A", JValue.bool true)])] ["A"]).optsAfter
      "A" = none ∧
    smapGet (normalizeFull id "u"
      [("options", JValue.obj [("A", JValue.bool true)])] ["A"]).env
      "options" = none :=
  ⟨(c9_normalize_strips_options id "u"
      [("options", JValue.obj [("A", JValue.bool true)])] ["A"]).1,
   (c9_normalize_strips_options id "u"
      [("options", JValue.obj [("A", JValue.bool true)])] ["A"]).2.1
      "A" (JValue.bool true) (by decide) (by decide),
   (c9_normalize_strips_options id "u"
      [("options", JValue.obj [("A", JValue.bool true)])] ["A"]).2.2⟩

/-- C10 (counterexample): with current id `foo` and stored anonymous id
`anon`, setting the id to the empty string — a non-null value different
from the current non-null id — does not reset the anonymous id (the setter
guards on JS truthiness, not on null), contradicting the claim. -/
theorem c10_counterexample :
    (some "" : Option String) ≠ none ∧
    (UserState.mk (some "foo") (some "anon") none).userId ≠ none ∧
    (some "" : Option String) ≠
      (UserState.mk (some "foo") (some "anon") none).userId ∧
    (User.setId (UserState.mk (some "foo") (some "anon") none)
      (some "")).anonId = some "anon" := by
  refine ⟨by decide, by decide, by decide, by decide⟩

/-- C10 (amended): setting the user's id to a truthy (non-null, non-empty)
value different from the current truthy id resets the anonymous id, so the
next read (with no legacy `_sio` cookie) returns a freshly generated one;
setting it when the previous id was null or empty, setting the same id, or
setting a null or empty id leaves the anonymous id unchanged. -/
theorem c10_id_change_resets_anonymousId (st : UserState) (id : Option String) :
    (falsyStr st.userId = false → falsyStr id = false → id ≠ st.userId →
      (User.setId st id).anonId = none ∧
      (∀ fresh, st.sio = none →
        (User.readAnonymousId (User.setId st id) fresh).1 = fresh)) ∧
    (falsyStr st.userId = true ∨ falsyStr id = true ∨ id = st.userId →
      (User.setId st id).anonId = st.anonId) := by
  constructor
  · intro h1 h2 h3
    have hne : st.userId ≠ id := fun hh => h3 hh.symm
    have hset : (User.setId st id).anonId = none := by
      simp only [User.setId, h1, h2, Bool.or_self, Bool.false_eq_true, if_false]
      rw [if_pos hne]
      rfl
    refine ⟨hset, ?_⟩
    intro fresh hsio
    have hsio2 : (User.setId st id).sio = none := by
      simp only [User.setId]
      by_cases hcond : (falsyStr st.userId || falsyStr id) = true
      · rw [if_pos hcond]
        exact hsio
      · rw [if_neg hcond]
        by_cases hni : st.userId ≠ id
        · rw [if_pos hni]
          exact hsio
        · rw [if_neg hni]
          exact hsio
    simp only [User.readAnonymousId, hset, hsio2]
  · intro hcase
    rcases hcase with h | h | h
    · simp only [User.setId, h, Bool.true_or, if_true]
    · simp only [User.setId, h, Bool.or_true, if_true]
    · simp only [User.setId]
      by_cases hcond : (falsyStr st.userId || falsyStr id) = true
      · rw [if_pos hcond]
      · rw [if_neg hcond]
        have hni : ¬(st.userId ≠ id) := fun hh => hh h.symm
        rw [if_neg hni]

/-- C10 (amended) witness: changing `foo` to `baz` clears the anonymous id
and the next read generates a fresh one; setting the id to `null` leaves
the stored anonymous id untouched. -/
theorem c10_witness :
    (User.setId (UserState.mk (some "foo") (some "anon") none)
      (some "baz")).anonId = none ∧
    (User.readAnonymousId
      (User.setId (UserState.mk (some "foo") (some "anon") none)
        (some "baz")) "fresh1").1 = "fresh1" ∧
    (User.setId (UserState.mk (some "foo") (some "anon") none)
      none).anonId = some "anon" :=
  ⟨((c10_id_change_resets_anonymousId
      (UserState.mk (some "foo") (some "anon") none) (some "baz")).1
      (by decide) (by decide) (by decide)).1,
   ((c10_id_change_resets_anonymousId
      (UserState.mk (some "foo") (some "anon") none) (some "baz")).1
      (by decide) (by decide) (by decide)).2 "fresh1" rfl,
   (c10_id_change_resets_anonymousId
      (UserState.mk (some "foo") (some "anon") none) none).2
      (Or.inr (Or.inl (by decide)))⟩
